import Mathlib

/-!
Verification of the LinkedIn posting workflow (`linkedin_poster.py`).

The pure string-processing code (`format_post`, the cookie validity filter,
the essential-cookie guard) is embedded directly as executable Lean
functions over `List Char` / `String`.  The browser-driving workflows
(`login_to_linkedin`, `create_post`, `post_to_linkedin`) are embedded as
deterministic functions from an explicit environment (recording which
external driver calls succeed, what the cookie file contains, which DOM
probes match) to a result together with a trace of the externally visible
driver actions, mirroring the source's control flow statement by statement.

Python-specific string semantics (`str.strip`, `str.split`, `str.splitlines`,
`str.isupper`, `in` substring tests, truthiness) are reproduced on
`List Char`; `splitlines` is modelled for `'\n'`-separated text, which is the
only line separator occurring in this code base, and `isupper`/`strip` use
the ASCII cased/whitespace characters, which cover every character the
classification rules can meaningfully test here.
-/

namespace LinkedIn

/-! ## Python string primitives on `List Char` -/

/-- Python whitespace characters as recognised by `str.strip()` (ASCII part). -/
def isPySpace (c : Char) : Bool :=
  c = ' ' || c = '\t' || c = '\n' || c = '\r' || c = '\x0b' || c = '\x0c'

/-- Python `s.strip()`: drop leading and trailing whitespace. -/
def pyStrip (l : List Char) : List Char :=
  ((l.dropWhile isPySpace).reverse.dropWhile isPySpace).reverse

/-- Python `s.split(sep)` for a single-character separator:
`"".split(c) = [""]`, and every occurrence of the separator starts a
new (possibly empty) field.  This is `List.splitOn`. -/
def pySplit (sep : Char) (s : List Char) : List (List Char) :=
  s.splitOn sep

/-- Python `sep.join(parts)`.  This is `List.intercalate`. -/
def joinSep (sep : List Char) (parts : List (List Char)) : List Char :=
  sep.intercalate parts

/-- Python `s.splitlines()` for `'\n'`-separated text: like splitting on
`'\n'` except that the empty string yields `[]` and a trailing newline
does not produce a final empty line. -/
def pySplitlines (s : List Char) : List (List Char) :=
  match s with
  | [] => []
  | _ =>
    if ((pySplit '\n' s).getLastD []).isEmpty then (pySplit '\n' s).dropLast
    else pySplit '\n' s

/-- Python `s.replace('**', '')`: remove non-overlapping `**` pairs,
scanning left to right. -/
def stripDoubleStar : List Char → List Char
  | '*' :: '*' :: rest => stripDoubleStar rest
  | c :: rest => c :: stripDoubleStar rest
  | [] => []

/-- Python `s.split('\n\n')` (two-character separator, non-overlapping,
left to right). -/
def splitBlank : List Char → List (List Char)
  | '\n' :: '\n' :: rest => [] :: splitBlank rest
  | c :: rest =>
    match splitBlank rest with
    | [] => [[c]]
    | p :: ps => (c :: p) :: ps
  | [] => [[]]

/-- Python `s.isupper()` restricted to ASCII letters: at least one cased
character, and no lowercase character. -/
def pyIsUpper (l : List Char) : Bool :=
  l.any Char.isUpper && !(l.any Char.isLower)

/-- Python substring test `needle in hay`. -/
def strIn (needle : List Char) : List Char → Bool
  | [] => needle.isEmpty
  | c :: t => needle.isPrefixOf (c :: t) || strIn needle t

/-- Python truthiness of an optional string (`os.getenv` result):
`None` and the empty string are falsy. -/
def pyTruthy : Option String → Bool
  | none => false
  | some s => !s.isEmpty

/-! ## Credential store (`save_cookies` / `load_cookies`)

A cookie record as handled by `pickle`-ing `driver.get_cookies()`:
a name, a value, optional `expiry`/`expires` timestamps, and an optional
`domain`.  Timestamps are modelled as integers (the code only compares
them with `<=`). -/

structure Cookie where
  name : String
  value : String
  expiry : Option Int
  expires : Option Int
  domain : Option String
deriving DecidableEq, Repr

/-- Python `for k in ['expiry', 'expires', 'domain']: cookie.pop(k, None)`
(lines 94–96). -/
def stripAttrs (c : Cookie) : Cookie :=
  ⟨c.name, c.value, none, none, none⟩

/-- The cookie-validity filter of `load_cookies` (lines 87–97): a record
with `'expiry' in cookie and cookie['expiry'] <= current_time` is skipped;
every surviving record has its `expiry`, `expires` and `domain` attributes
removed before being handed to `driver.add_cookie`. -/
def validCookiesOf (now : Int) (cookies : List Cookie) : List Cookie :=
  (cookies.filter fun c =>
    match c.expiry with
    | some e => decide (now < e)
    | none => true).map stripAttrs

/-- The source's `essential_cookies = ['li_at', 'JSESSIONID']` (line 63). -/
def essential_cookies : List String := ["li_at", "JSESSIONID"]

/-- Externally visible effect of `save_cookies`. -/
inductive SaveEv
  | writeFile
deriving DecidableEq, Repr

/-- Function `save_cookies` (lines 55–74): writes the pickle file and returns
`True` iff at least one cookie name is essential, otherwise returns
`False` without writing. -/
def save_cookies (cookies : List Cookie) : Bool × List SaveEv :=
  if cookies.any (fun c => essential_cookies.contains c.name) then
    (true, [SaveEv.writeFile])
  else
    (false, [])

end LinkedIn

namespace LinkedIn

/-! ## Login workflow (`login_to_linkedin`, lines 153–217)

The environment fixes everything the function observes from the outside
world: whether the cookie file exists, its contents, the current time,
whether `check_login_status` succeeds in the cookie phase and in the
manual phase, the configured credentials, and whether the manual
form interaction raises.  `driver.add_cookie` failures only print a
warning in the source and are not modelled.  The result type is
`Except String Bool` so that the possibility of an exception escaping
to the caller is expressible; the source wraps the whole body in
`try/except Exception` returning `False`, so the embedding in fact
always produces `.ok`. -/

inductive LoginEv
  | navHome
  | loadAttempt
  | addCookie (name : String)
  | refresh
  | checkLoginCookie
  | removeCookieFile
  | raiseConfigError
  | navLoginPage
  | enterEmail
  | enterPassword
  | submitLogin
  | checkLoginManual
  | saveCookies
deriving DecidableEq, Repr

structure LoginEnv where
  fileExists : Bool
  stored : List Cookie
  now : Int
  checkAfterCookies : Bool
  email : Option String
  password : Option String
  manualFieldsOk : Bool
  checkAfterManual : Bool
deriving Repr

/-- Function `load_cookies` (lines 76–115) as called with an existing file:
returns `True` and injects the valid cookies iff the validity filter
leaves at least one record, else returns `False` injecting nothing. -/
def load_cookies (env : LoginEnv) : Bool × List LoginEv :=
  if env.fileExists then
    let valid := validCookiesOf env.now env.stored
    if valid.isEmpty then (false, [])
    else (true, valid.map fun c => LoginEv.addCookie c.name)
  else (false, [])

/-- Function `login_to_linkedin` (lines 153–217), statement by statement.
The `raise ValueError(...)` at line 176 is modelled as the
`raiseConfigError` event followed by the control transfer to the
function's own `except Exception` handler (line 213), which returns
`False`. -/
def login_to_linkedin (env : LoginEnv) : Except String Bool × List LoginEv :=
  let t0 := [LoginEv.navHome]
  let afterCookies : Option Bool × List LoginEv :=
    if env.fileExists then
      let (ok, tl) := load_cookies env
      let t1 := t0 ++ [LoginEv.loadAttempt] ++ tl
      if ok then
        let t2 := t1 ++ [LoginEv.refresh, LoginEv.checkLoginCookie]
        if env.checkAfterCookies then (some true, t2)
        else (none, t2 ++ [LoginEv.removeCookieFile])
      else (none, t1)
    else (none, t0)
  match afterCookies with
  | (some r, t) => (Except.ok r, t)
  | (none, t) =>
    if !(pyTruthy env.email) || !(pyTruthy env.password) then
      (Except.ok false, t ++ [LoginEv.raiseConfigError])
    else
      let t1 := t ++ [LoginEv.navLoginPage]
      if !env.manualFieldsOk then (Except.ok false, t1)
      else
        let t2 := t1 ++ [LoginEv.enterEmail, LoginEv.enterPassword,
          LoginEv.submitLogin, LoginEv.checkLoginManual]
        if env.checkAfterManual then (Except.ok true, t2 ++ [LoginEv.saveCookies])
        else (Except.ok false, t2)

/-! ## Publishing workflow (`create_post`, lines 219–382) -/

inductive CreateEv
  | navFeed
  | composeClick
  | screenshotPrePost
  | screenshotError
  | pageSourceDump
  | editorFound
  | clearEditor
  | injectParagraph
  | submitClick
  | verifyOk
  | warnUnverified
deriving DecidableEq, Repr

structure CreateEnv where
  btn1 : Bool
  btn2 : Bool
  btn3 : Bool
  ed1 : Bool
  ed2 : Bool
  ed3 : Bool
  sub1 : Bool
  sub2 : Bool
  sub3 : Bool
  ver1 : Bool
  ver2 : Bool
  ver3 : Bool
deriving Repr

/-- The paragraph loop of `create_post` (lines 296–308): paragraphs are
`content.split('\n\n')`, and only those with non-empty strip are
injected. -/
def paragraphsOf (content : List Char) : List (List Char) :=
  (splitBlank content).filter fun p => !(pyStrip p).isEmpty

/-- Function `create_post` (lines 219–382).  Each of the three locator chains is
driven by its environment flags; exhaustion of the compose-trigger chain
takes the pre-failure screenshot (line 258) and raises, exhaustion of the
editor or submit chain raises, and every raise lands in the function's
`except` handler (lines 368–382) which captures a screenshot plus a page
source preview and returns `False`.  The three success probes (lines
347–362) are tried in order; if none matches the function logs a warning
and returns `True` (lines 365–366). -/
def create_post (env : CreateEnv) (content : List Char) : Bool × List CreateEv :=
  let t0 := [CreateEv.navFeed]
  if env.btn1 || env.btn2 || env.btn3 then
    let tb := t0 ++ [CreateEv.composeClick]
    if env.ed1 || env.ed2 || env.ed3 then
      let te := tb ++ [CreateEv.editorFound, CreateEv.clearEditor]
        ++ (paragraphsOf content).map (fun _ => CreateEv.injectParagraph)
      if env.sub1 || env.sub2 || env.sub3 then
        let ts := te ++ [CreateEv.submitClick]
        if env.ver1 || env.ver2 || env.ver3 then
          (true, ts ++ [CreateEv.verifyOk])
        else
          (true, ts ++ [CreateEv.warnUnverified])
      else
        (false, te ++ [CreateEv.screenshotError, CreateEv.pageSourceDump])
    else
      (false, tb ++ [CreateEv.screenshotError, CreateEv.pageSourceDump])
  else
    (false, t0 ++ [CreateEv.screenshotPrePost, CreateEv.screenshotError,
      CreateEv.pageSourceDump])

/-! ## Top-level run (`post_to_linkedin`, lines 384–427) -/

inductive PostEv
  | getLatest
  | getDriver
  | maximize
  | login
  | createPost
  | writeLog
  | quit
deriving DecidableEq, Repr

structure PostEnv where
  contentGiven : Bool
  getLatestOk : Bool
  getDriverOk : Bool
  maximizeOk : Bool
  loginOk : Bool
  createOk : Bool
  logOk : Bool
deriving Repr

/-- Function `post_to_linkedin` (lines 384–427): `driver = None`, a `try` body
that may raise at each step (every raise is caught by the
`except Exception` returning `False`), and a `finally` block running
`driver.quit()` exactly when `driver` was assigned, i.e. when
`get_driver()` returned.  `get_driver` is modelled as one atomic step. -/
def post_to_linkedin (env : PostEnv) : Bool × List PostEv :=
  let body : Bool × List PostEv × Bool :=
    if !env.contentGiven && !env.getLatestOk then (false, [PostEv.getLatest], false)
    else
      let t0 := if env.contentGiven then [] else [PostEv.getLatest]
      if !env.getDriverOk then (false, t0, false)
      else
        let t1 := t0 ++ [PostEv.getDriver]
        if !env.maximizeOk then (false, t1 ++ [PostEv.maximize], true)
        else
          let t2 := t1 ++ [PostEv.maximize, PostEv.login]
          if !env.loginOk then (false, t2, true)
          else
            let t3 := t2 ++ [PostEv.createPost]
            if !env.createOk then (false, t3, true)
            else
              let t4 := t3 ++ [PostEv.writeLog]
              if !env.logOk then (false, t4, true)
              else (true, t4, true)
  match body with
  | (r, t, created) => (r, if created then t ++ [PostEv.quit] else t)

/-! ## Post formatter (`format_post`, lines 486–570)

The source file is UTF-8 whose emoji markers are stored in mojibake form
(each intended emoji appears as the 3–6 Latin-1/Windows-1252 characters
of its UTF-8 bytes); the embedding reproduces the exact character
sequences present in the file, e.g. the bullet marker `'â€¢'` is the
three characters U+00E2 U+20AC U+00A2. -/

/-- The source's `header_indicators` (lines 499–508), exactly as in the file. -/
def headerIndicators : List (List Char) :=
  [[':'],
   ['ð', 'Ÿ', '”', '¥'],
   ['ð', 'Ÿ', '’', '¡'],
   ['ð', 'Ÿ', 'š', '€'],
   ['ð', 'Ÿ', 'Œ', 'Ž'],
   ['ð', 'Ÿ', '¤', '”'],
   ['ð', 'Ÿ', '—', '£', 'ï', '¸'],
   ['ï', '¿', '½'],
   "Breaking News".toList,
   "Why".toList,
   "Impact".toList,
   "Take".toList,
   "Question".toList,
   "Call to Action".toList]

/-- The bullet marker `'â€¢'` as stored in the file. -/
def bulletGlyph : List Char := ['â', '€', '¢']

/-- Python `line.endswith(':')`. -/
def endsColon (l : List Char) : Bool :=
  match l.reverse with
  | ':' :: _ => true
  | _ => false

/-- The `is_header` test (lines 516–520): any indicator occurs as a
substring, or (for non-first lines) a short all-uppercase line, or (for
non-first lines) a trailing colon. -/
def isHeaderLine (i : Nat) (l : List Char) : Bool :=
  headerIndicators.any (fun ind => strIn ind l)
    || (decide (0 < i) && decide (l.length ≤ 50) && pyIsUpper l)
    || (decide (0 < i) && endsColon l)

/-- Python `line.startswith(('â€¢', '-'))` (lines 531–532). -/
def isBulletLine (l : List Char) : Bool :=
  bulletGlyph.isPrefixOf l || ['-'].isPrefixOf l

/-- Loop state: the emitted `formatted_sections` and the running
`current_section` (a list of lines). -/
structure FmtState where
  sections : List (List Char)
  current : List (List Char)
deriving Repr

/-- Python `if current_section: formatted_sections.append('\n'.join(current_section))`. -/
def flushSections (st : FmtState) : List (List Char) :=
  if st.current.isEmpty then st.sections
  else st.sections ++ [joinSep ['\n'] st.current]

/-- Python `current_section[-1].startswith(('â€¢', '-'))`, false on the empty
section. -/
def lastIsBullet (cur : List (List Char)) : Bool :=
  match cur.getLast? with
  | some x => isBulletLine x
  | none => false

/-- One iteration of the classification loop (lines 510–547). -/
def stepLine (i : Nat) (l : List Char) (st : FmtState) : FmtState :=
  if ("---".toList).isPrefixOf l then st
  else if isHeaderLine i l then ⟨flushSections st ++ [l], []⟩
  else if isBulletLine l then
    if !st.current.isEmpty && !lastIsBullet st.current then
      ⟨flushSections st, [l]⟩
    else ⟨st.sections, st.current ++ [l]⟩
  else if (['#']).isPrefixOf l then ⟨flushSections st ++ [l], []⟩
  else ⟨st.sections, st.current ++ [l]⟩

/-- The classification loop over `enumerate(lines)`. -/
def runFold : Nat → List (List Char) → FmtState → FmtState
  | _, [], st => st
  | i, l :: ls, st => runFold (i + 1) ls (stepLine i l st)

/-- Python `lines = [line.strip() for line in content.splitlines() if line.strip()]`
(line 492). -/
def linesOf (content : List Char) : List (List Char) :=
  ((pySplitlines content).map pyStrip).filter fun l => !l.isEmpty

/-- The `formatted_sections` produced by `format_post` on `content`
(after the `'**'` removal of line 489), including the final flush of
lines 550–551. -/
def formatSections (content : List Char) : List (List Char) :=
  flushSections (runFold 0 (linesOf (stripDoubleStar content)) ⟨[], []⟩)

/-- The joining loop of lines 554–562: skip sections with empty strip,
prepend `'\n'` for every section with positive index, append the
section's strip. -/
def assembleSections : Nat → List (List Char) → List Char → List Char
  | _, [], acc => acc
  | i, s :: ss, acc =>
    if (pyStrip s).isEmpty then assembleSections (i + 1) ss acc
    else assembleSections (i + 1) ss
      ((if 0 < i then acc ++ ['\n'] else acc) ++ pyStrip s)

/-- The hashtag relocation of lines 565–568: if `'#'` occurs, split on
`'#'`, keep the first field as the body, and rejoin the remaining fields
(each stripped) as one trailing `'#'`-prefixed line. -/
def hashtagTail (t : List Char) : List Char :=
  if t.contains '#' then
    match pySplit '#' t with
    | [] => t
    | main :: parts =>
      pyStrip main ++ '\n' :: '#' :: joinSep [' ', '#'] (parts.map pyStrip)
  else t

/-- Function `format_post` (lines 486–570) on character lists. -/
def formatPostL (content : List Char) : List Char :=
  pyStrip (hashtagTail (assembleSections 0 (formatSections content) []))

/-- Function `format_post` on strings. -/
def format_post (content : String) : String :=
  String.mk (formatPostL content.toList)

/-- The line classes of the classification rules. -/
inductive LineClass
  | header
  | bullet
  | hashtag
  | plain
deriving DecidableEq, Repr

/-- Classification of one stripped non-empty line at position `i`, by
the source's priority order: header, then bullet, then hashtag, then
plain. -/
def classifyLine (i : Nat) (l : List Char) : LineClass :=
  if isHeaderLine i l then LineClass.header
  else if isBulletLine l then LineClass.bullet
  else if (['#']).isPrefixOf l then LineClass.hashtag
  else LineClass.plain

/-- The lines of class `cls` occurring in a text, in order: the text is
cut into stripped non-empty lines and each line classified at its
position. -/
def classifiedLines (cls : LineClass) (content : List Char) : List (List Char) :=
  ((linesOf content).enum.filter fun p => classifyLine p.1 p.2 = cls).map
    Prod.snd

/-! ## Verification predicates -/

/-- A processed line: non-empty, newline-free and strip-idempotent —
exactly the shape of the members of `linesOf`. -/
def LineOk (l : List Char) : Prop :=
  l ≠ [] ∧ '\n' ∉ l ∧ pyStrip l = l

/-- Returns `true` on the lines the classification loop keeps (those not
starting with the `'---'` marker skipped at line 512). -/
def Keep (l : List Char) : Bool :=
  !(("---".toList).isPrefixOf l)

/-- A well-formed emitted section: the newline-join of a non-empty group
of kept processed lines. -/
def SecOk (s : List Char) : Prop :=
  ∃ g, g ≠ [] ∧ (∀ l ∈ g, LineOk l ∧ Keep l = true) ∧ s = joinSep ['\n'] g

/-- The lines contained in a formatter loop state, in order. -/
def flattenState (st : FmtState) : List (List Char) :=
  (st.sections.map (pySplit '\n')).flatten ++ st.current

/-- Loop invariant: every emitted section is well formed and the running
section holds kept processed lines. -/
def InvState (st : FmtState) : Prop :=
  (∀ s ∈ st.sections, SecOk s) ∧ ∀ l ∈ st.current, LineOk l ∧ Keep l = true

/-- No interior line start of `s` (a position right after a newline)
carries the `'---'` marker: the four-character pattern
newline-dash-dash-dash does not occur in `s`. -/
def noNLTriple (s : List Char) : Bool :=
  !(strIn ['\n', '-', '-', '-'] s)

end LinkedIn

namespace LinkedIn

/-! ## Supporting lemmas: substring occurrence -/

theorem prefixOf_iff {l₁ l₂ : List Char} : l₁.isPrefixOf l₂ = true ↔ l₁ <+: l₂ :=
  List.isPrefixOf_iff_prefix

theorem prefixOf_false_iff {l₁ l₂ : List Char} :
    l₁.isPrefixOf l₂ = false ↔ ¬l₁ <+: l₂ := by
  rw [← prefixOf_iff]
  exact Bool.eq_false_iff.trans (by simp)

theorem pre_to_within {l₁ l₂ : List Char} (h : l₁ <+: l₂) : l₁ <:+: l₂ :=
  List.IsPrefix.isInfix h

theorem suf_to_within {l₁ l₂ : List Char} (h : l₁ <:+ l₂) : l₁ <:+: l₂ :=
  List.IsSuffix.isInfix h

theorem rdrop_pre (p : Char → Bool) (l : List Char) : l.rdropWhile p <+: l :=
  List.rdropWhile_prefix p l

theorem strIn_nil_left (B : List Char) : strIn [] B = true := by
  cases B <;> simp [strIn, List.isPrefixOf]

theorem strIn_of_append_right {n B : List Char} (A : List Char)
    (h : strIn n B = true) : strIn n (A ++ B) = true := by
  induction A with
  | nil => simpa using h
  | cons c A ih => simp [strIn, ih]

theorem strIn_of_append_left {n A : List Char} (B : List Char)
    (h : strIn n A = true) : strIn n (A ++ B) = true := by
  induction A with
  | nil =>
    simp [strIn, List.isEmpty_iff] at h
    subst h
    exact strIn_nil_left B
  | cons c A ih =>
    simp only [strIn, Bool.or_eq_true] at h
    rcases h with h | h
    · have hp : n <+: c :: (A ++ B) := by
        rw [← List.cons_append]
        exact (prefixOf_iff.mp h).trans (List.prefix_append _ _)
      simp [strIn, prefixOf_iff.mpr hp]
    · simp [strIn, ih h]

theorem strIn_of_within {n l s : List Char} (hls : l <:+: s)
    (h : strIn n l = true) : strIn n s = true := by
  rcases hls with ⟨u, v, rfl⟩
  rw [List.append_assoc]
  exact strIn_of_append_right u (strIn_of_append_left v h)

theorem noNLTriple_of_within {l s : List Char} (hls : l <:+: s)
    (h : noNLTriple s = true) : noNLTriple l = true := by
  unfold noNLTriple at h ⊢
  rcases hsub : strIn ['\n', '-', '-', '-'] l with _ | _
  · rfl
  · rw [strIn_of_within hls hsub] at h
    exact absurd h (by simp)

theorem noNLTriple_cons_elim {c : Char} {A : List Char}
    (h : noNLTriple (c :: A) = true) : noNLTriple A = true := by
  unfold noNLTriple strIn at h
  rcases hx : strIn ['\n', '-', '-', '-'] A with _ | _
  · simp [noNLTriple, hx]
  · rw [hx] at h
    simp at h

theorem noNLTriple_of_no_newline {A : List Char} (h : '\n' ∉ A) :
    noNLTriple A = true := by
  induction A with
  | nil => rfl
  | cons c A ih =>
    have hc : c ≠ '\n' := fun hc => h (hc ▸ List.mem_cons_self c A)
    have hA : '\n' ∉ A := fun hA => h (List.mem_cons_of_mem c hA)
    have hpre : (['\n', '-', '-', '-'].isPrefixOf (c :: A)) = false := by
      rw [prefixOf_false_iff]
      rintro ⟨r, hr⟩
      simp only [List.cons_append, List.cons.injEq] at hr
      exact hc hr.1.symm
    unfold noNLTriple strIn
    rw [hpre]
    simpa [noNLTriple] using ih hA

theorem noNLTriple_append_noNL {A B : List Char} (hA : '\n' ∉ A)
    (hB : noNLTriple B = true) : noNLTriple (A ++ B) = true := by
  induction A with
  | nil => simpa using hB
  | cons c A ih =>
    have hc : c ≠ '\n' := fun hc => hA (hc ▸ List.mem_cons_self c A)
    have hA' : '\n' ∉ A := fun h => hA (List.mem_cons_of_mem c h)
    have hpre : (['\n', '-', '-', '-'].isPrefixOf (c :: (A ++ B))) = false := by
      rw [prefixOf_false_iff]
      rintro ⟨r, hr⟩
      simp only [List.cons_append, List.cons.injEq] at hr
      exact hc hr.1.symm
    rw [List.cons_append]
    unfold noNLTriple strIn
    rw [hpre]
    simpa [noNLTriple] using ih hA'

theorem noNLTriple_append_headSafe {A B : List Char}
    (hA : noNLTriple A = true) (hB : noNLTriple B = true)
    (hBh : B.headD ' ' ≠ '-') : noNLTriple (A ++ B) = true := by
  induction A with
  | nil => simpa using hB
  | cons c A ih =>
    have hpre : (['\n', '-', '-', '-'].isPrefixOf (c :: (A ++ B))) = false := by
      rw [prefixOf_false_iff]
      rintro ⟨r, hr⟩
      simp only [List.cons_append, List.cons.injEq] at hr
      obtain ⟨hc, hr⟩ := hr
      -- the three dashes land inside A (then c :: A starts with the banned
      -- pattern, contradicting hA) or spill over into B (then B's head is a
      -- dash, contradicting hBh)
      rcases A with _ | ⟨a1, A⟩
      · simp only [List.nil_append] at hr
        rw [← hr] at hBh
        simp at hBh
      · simp only [List.cons_append, List.cons.injEq] at hr
        obtain ⟨ha1, hr⟩ := hr
        rcases A with _ | ⟨a2, A⟩
        · simp only [List.nil_append] at hr
          rw [← hr] at hBh
          simp at hBh
        · simp only [List.cons_append, List.cons.injEq] at hr
          obtain ⟨ha2, hr⟩ := hr
          rcases A with _ | ⟨a3, A⟩
          · simp only [List.nil_append] at hr
            rw [← hr] at hBh
            simp at hBh
          · simp only [List.cons_append, List.cons.injEq] at hr
            obtain ⟨ha3, _⟩ := hr
            have hocc : strIn ['\n', '-', '-', '-']
                (c :: a1 :: a2 :: a3 :: A) = true := by
              subst hc ha1 ha2 ha3
              simp [strIn, List.isPrefixOf]
            unfold noNLTriple at hA
            rw [hocc] at hA
            simp at hA
    rw [List.cons_append]
    unfold noNLTriple strIn
    rw [hpre]
    simpa [noNLTriple] using ih (noNLTriple_cons_elim hA)

/-! ## Supporting lemmas: `pyStrip` -/

theorem pyStrip_eq_rdrop (l : List Char) :
    pyStrip l = (l.dropWhile isPySpace).rdropWhile isPySpace := rfl

theorem pyStrip_within (l : List Char) : pyStrip l <:+: l := by
  rw [pyStrip_eq_rdrop]
  exact (pre_to_within (rdrop_pre _ _)).trans
    (suf_to_within (List.dropWhile_suffix _))

theorem dropWhile_cons_head {p : Char → Bool} {l : List Char} {c : Char}
    {cs : List Char} (h : l.dropWhile p = c :: cs) : p c = false := by
  induction l with
  | nil => simp at h
  | cons a t ih =>
    rw [List.dropWhile_cons] at h
    split at h
    · exact ih h
    · rename_i hpa
      cases h
      simpa using hpa

theorem pyStrip_head {l : List Char} {c : Char} {cs : List Char}
    (h : pyStrip l = c :: cs) : isPySpace c = false := by
  rw [pyStrip_eq_rdrop] at h
  have hpre := rdrop_pre isPySpace (l.dropWhile isPySpace)
  rw [h] at hpre
  rcases hpre with ⟨r, hr⟩
  have hd : l.dropWhile isPySpace = c :: (cs ++ r) := by
    rw [← hr]; simp
  exact dropWhile_cons_head hd

theorem pyStrip_last {l : List Char} (h : pyStrip l ≠ []) :
    isPySpace ((pyStrip l).getLastD 'x') = false := by
  rw [pyStrip_eq_rdrop] at h ⊢
  have := List.rdropWhile_last_not isPySpace (l.dropWhile isPySpace) h
  rwa [List.getLastD_eq_getLast?, List.getLast?_eq_getLast _ h,
    Option.getD_some, ← Bool.not_eq_true]

theorem pyStrip_eq_self_of {l : List Char}
    (hhead : isPySpace (l.headD 'x') = false)
    (hlast : isPySpace (l.getLastD 'x') = false) : pyStrip l = l := by
  rcases l with _ | ⟨a, t⟩
  · rfl
  · have h1 : (a :: t).dropWhile isPySpace = a :: t :=
      List.dropWhile_cons_of_neg (by simpa using hhead)
    rw [pyStrip_eq_rdrop, h1, List.rdropWhile_eq_self_iff]
    intro _
    rw [List.getLastD_eq_getLast?, List.getLast?_eq_getLast _ (by simp),
      Option.getD_some] at hlast
    simp [hlast]

theorem pyStrip_idem (l : List Char) : pyStrip (pyStrip l) = pyStrip l := by
  rcases h : pyStrip l with _ | ⟨c, cs⟩
  · rfl
  · apply pyStrip_eq_self_of
    · simpa using pyStrip_head h
    · have := pyStrip_last (l := l) (by simp [h])
      rwa [h] at this

theorem head_not_space_of_strip_eq {l : List Char} {c : Char} {cs : List Char}
    (hl : pyStrip l = l) (hc : l = c :: cs) : isPySpace c = false :=
  pyStrip_head (by rw [hl, hc])

theorem last_not_space_of_strip_eq {l : List Char} (hl : pyStrip l = l)
    (hne : l ≠ []) : isPySpace (l.getLastD 'x') = false := by
  have := pyStrip_last (l := l) (by rw [hl]; exact hne)
  rwa [hl] at this

/-! ## Supporting lemmas: joins -/

theorem joinSep_nil (sep : List Char) : joinSep sep [] = [] := rfl

theorem joinSep_single (sep : List Char) (a : List Char) :
    joinSep sep [a] = a := by
  simp [joinSep, List.intercalate]

theorem joinSep_cons₂ (sep : List Char) (a b : List Char)
    (t : List (List Char)) :
    joinSep sep (a :: b :: t) = a ++ sep ++ joinSep sep (b :: t) := by
  simp [joinSep, List.intercalate, List.intersperse]

theorem headD_mem {g : List (List Char)} (hg : g ≠ []) : g.headD [] ∈ g := by
  rcases g with _ | ⟨a, t⟩
  · exact absurd rfl hg
  · exact List.mem_cons_self a t

theorem getLastD_mem {g : List (List Char)} (hg : g ≠ []) :
    g.getLastD [] ∈ g := by
  rcases g with _ | ⟨a, t⟩
  · exact absurd rfl hg
  · rw [List.getLastD_cons]
    exact List.getLastD_mem_cons t a

theorem joinNL_ne_nil {g : List (List Char)} (hg : g ≠ [])
    (h : ∀ l ∈ g, l ≠ []) : joinSep ['\n'] g ≠ [] := by
  rcases g with _ | ⟨a, t⟩
  · exact absurd rfl hg
  · rcases t with _ | ⟨b, t⟩
    · rw [joinSep_single]
      exact h a (List.mem_cons_self a _)
    · rw [joinSep_cons₂]
      simp

theorem joinNL_headD {g : List (List Char)} (hg : g ≠ [])
    (h : ∀ l ∈ g, l ≠ []) :
    (joinSep ['\n'] g).headD 'x' = (g.headD []).headD 'x' := by
  rcases g with _ | ⟨a, t⟩
  · exact absurd rfl hg
  · rcases t with _ | ⟨b, t⟩
    · rw [joinSep_single]; rfl
    · rw [joinSep_cons₂]
      rcases a with _ | ⟨c, cs⟩
      · exact absurd rfl (h [] (List.mem_cons_self _ _))
      · rfl

theorem joinNL_getLastD {g : List (List Char)} (hg : g ≠ [])
    (h : ∀ l ∈ g, l ≠ []) :
    (joinSep ['\n'] g).getLastD 'x' = (g.getLastD []).getLastD 'x' := by
  induction g with
  | nil => exact absurd rfl hg
  | cons a t ih =>
    rcases t with _ | ⟨b, t⟩
    · rw [joinSep_single]; rfl
    · rw [joinSep_cons₂, List.append_assoc]
      have hjoin : joinSep ['\n'] (b :: t) ≠ [] :=
        joinNL_ne_nil (by simp) (fun l hl => h l (List.mem_cons_of_mem a hl))
      rw [List.getLastD_eq_getLast?,
        List.getLast?_append_of_ne_nil _ (by simp [hjoin]),
        List.getLast?_append_of_ne_nil _ hjoin,
        ← List.getLastD_eq_getLast?,
        ih (by simp) (fun l hl => h l (List.mem_cons_of_mem a hl))]
      rfl

theorem joinNL_strip {g : List (List Char)} (hg : g ≠ [])
    (h : ∀ l ∈ g, l ≠ [] ∧ pyStrip l = l) :
    pyStrip (joinSep ['\n'] g) = joinSep ['\n'] g := by
  apply pyStrip_eq_self_of
  · rw [joinNL_headD hg (fun l hl => (h l hl).1)]
    have hmem := headD_mem hg
    rcases h _ hmem with ⟨hne, hstrip⟩
    rcases hh : g.headD [] with _ | ⟨c, cs⟩
    · exact absurd hh hne
    · simpa using head_not_space_of_strip_eq (hh ▸ hstrip) rfl
  · rw [joinNL_getLastD hg (fun l hl => (h l hl).1)]
    have hmem := getLastD_mem hg
    rcases h _ hmem with ⟨hne, hstrip⟩
    exact last_not_space_of_strip_eq hstrip hne

/-! ## Supporting lemmas: `pySplit` and `pySplitlines` -/

theorem pySplit_ne_nil (sep : Char) (s : List Char) : pySplit sep s ≠ [] :=
  List.splitOnP_ne_nil _ s

theorem pySplit_nil (sep : Char) : pySplit sep [] = [[]] := rfl

theorem pySplit_cons (sep c : Char) (cs : List Char) :
    pySplit sep (c :: cs) =
      if c = sep then [] :: pySplit sep cs
      else (pySplit sep cs).modifyHead (List.cons c) := by
  unfold pySplit List.splitOn
  rw [List.splitOnP_cons]
  by_cases h : c = sep
  · subst h; simp
  · simp [h]

theorem pySplit_sep_append (sep : Char) (A B : List Char) :
    pySplit sep (A ++ sep :: B) = pySplit sep A ++ pySplit sep B := by
  induction A with
  | nil => simp [pySplit_nil, pySplit_cons]
  | cons c A ih =>
    rw [List.cons_append, pySplit_cons, pySplit_cons]
    by_cases h : c = sep
    · simp [h, ih]
    · rw [if_neg h, if_neg h, ih]
      rcases hA : pySplit sep A with _ | ⟨p, ps⟩
      · exact absurd hA (pySplit_ne_nil sep A)
      · simp

theorem mem_pySplit_not_sep {sep : Char} {s l : List Char}
    (h : l ∈ pySplit sep s) : sep ∉ l := by
  induction s generalizing l with
  | nil =>
    rw [pySplit_nil] at h
    rcases List.mem_singleton.mp h
    simp
  | cons c cs ih =>
    rw [pySplit_cons] at h
    by_cases hc : c = sep
    · rw [if_pos hc] at h
      rcases List.mem_cons.mp h with rfl | h
      · simp
      · exact ih h
    · rw [if_neg hc] at h
      rcases hA : pySplit sep cs with _ | ⟨p, ps⟩
      · exact absurd hA (pySplit_ne_nil sep cs)
      · rw [hA] at h
        simp only [List.modifyHead] at h
        rcases List.mem_cons.mp h with rfl | h
        · have hp : sep ∉ p := ih (hA ▸ List.mem_cons_self p ps)
          simp [hc, hp]
          exact fun hx => absurd hx.symm hc
        · exact ih (hA ▸ List.mem_cons_of_mem p h)

theorem pySplit_headD_pre (sep : Char) (s : List Char) :
    (pySplit sep s).headD [] <+: s := by
  induction s with
  | nil => simp [pySplit_nil]
  | cons c cs ih =>
    rw [pySplit_cons]
    by_cases hc : c = sep
    · rw [if_pos hc]
      simp
    · rw [if_neg hc]
      rcases hA : pySplit sep cs with _ | ⟨p, ps⟩
      · exact absurd hA (pySplit_ne_nil sep cs)
      · rw [hA] at ih
        simp only [List.modifyHead, List.headD] at ih ⊢
        exact List.cons_prefix_cons.mpr ⟨rfl, ih⟩

theorem mem_pySplit_within {sep : Char} {s l : List Char}
    (h : l ∈ pySplit sep s) : l <:+: s := by
  induction s generalizing l with
  | nil =>
    rw [pySplit_nil] at h
    rcases List.mem_singleton.mp h
    exact List.infix_refl _
  | cons c cs ih =>
    rw [pySplit_cons] at h
    by_cases hc : c = sep
    · rw [if_pos hc] at h
      rcases List.mem_cons.mp h with rfl | h
      · exact List.nil_infix
      · exact List.infix_cons (ih h)
    · rw [if_neg hc] at h
      rcases hA : pySplit sep cs with _ | ⟨p, ps⟩
      · exact absurd hA (pySplit_ne_nil sep cs)
      · rw [hA] at h
        simp only [List.modifyHead] at h
        rcases List.mem_cons.mp h with rfl | h
        · have hp : p <+: cs := by
            have := pySplit_headD_pre sep cs
            rwa [hA] at this
          exact pre_to_within (List.cons_prefix_cons.mpr ⟨rfl, hp⟩)
        · exact List.infix_cons (ih (hA ▸ List.mem_cons_of_mem p h))

theorem pySplit_joinNL {g : List (List Char)} (hg : g ≠ [])
    (h : ∀ l ∈ g, '\n' ∉ l) : pySplit '\n' (joinSep ['\n'] g) = g :=
  List.splitOn_intercalate g '\n' h hg

theorem joinNL_pySplit (s : List Char) :
    joinSep ['\n'] (pySplit '\n' s) = s :=
  List.intercalate_splitOn s '\n'

theorem mem_pySplitlines {s l : List Char} (h : l ∈ pySplitlines s) :
    l ∈ pySplit '\n' s := by
  rcases s with _ | ⟨c, cs⟩
  · simp [pySplitlines] at h
  · simp only [pySplitlines] at h
    split at h
    · exact (List.dropLast_sublist _).subset h
    · exact h

theorem pySplitlines_eq_full {s : List Char} (hs : s ≠ [])
    (hlast : (pySplit '\n' s).getLastD [] ≠ []) :
    pySplitlines s = pySplit '\n' s := by
  rcases s with _ | ⟨c, cs⟩
  · exact absurd rfl hs
  · simp only [pySplitlines]
    rw [if_neg]
    simpa [List.isEmpty_iff] using hlast

theorem pySplit_no_sep {sep : Char} {l : List Char} (h : sep ∉ l) :
    pySplit sep l = [l] := by
  unfold pySplit List.splitOn
  exact List.splitOnP_eq_single _ _
    (fun x hx hbeq => h (beq_iff_eq.mp hbeq ▸ hx))

/-! ## Supporting lemmas: `linesOf` and `stripDoubleStar` -/

theorem mem_linesOf_lineOk {content l : List Char} (h : l ∈ linesOf content) :
    LineOk l := by
  unfold linesOf at h
  rcases List.mem_filter.mp h with ⟨hmem, hne⟩
  rcases List.mem_map.mp hmem with ⟨l₀, hl₀, rfl⟩
  have hne' : pyStrip l₀ ≠ [] := by
    intro hx
    rw [hx] at hne
    simp at hne
  refine ⟨hne', ?_, pyStrip_idem l₀⟩
  intro hnl
  exact mem_pySplit_not_sep (mem_pySplitlines hl₀)
    ((pyStrip_within l₀).subset hnl)

theorem mem_linesOf_chars {content l : List Char} (h : l ∈ linesOf content)
    {c : Char} (hc : c ∈ l) : c ∈ content := by
  unfold linesOf at h
  rcases List.mem_filter.mp h with ⟨hmem, _⟩
  rcases List.mem_map.mp hmem with ⟨l₀, hl₀, rfl⟩
  exact (mem_pySplit_within (mem_pySplitlines hl₀)).subset
    ((pyStrip_within l₀).subset hc)

theorem stripDoubleStar_eq_self {l : List Char}
    (h : strIn ['*', '*'] l = false) : stripDoubleStar l = l := by
  induction l with
  | nil => rfl
  | cons c rest ih =>
    have hpre : (['*', '*'].isPrefixOf (c :: rest)) = false := by
      unfold strIn at h
      rcases hx : ['*', '*'].isPrefixOf (c :: rest) with _ | _
      · rfl
      · rw [hx] at h
        simp at h
    have hrest : strIn ['*', '*'] rest = false := by
      unfold strIn at h
      rcases hx : strIn ['*', '*'] rest with _ | _
      · rfl
      · rw [hx] at h
        simp at h
    rw [show stripDoubleStar (c :: rest) = c :: stripDoubleStar rest from ?_,
      ih hrest]
    rcases rest with _ | ⟨d, rest'⟩
    · by_cases hc : c = '*' <;> simp [stripDoubleStar, hc]
    · by_cases hc : c = '*'
      · subst hc
        have hd : d ≠ '*' := by
          intro hd
          subst hd
          rw [prefixOf_false_iff] at hpre
          exact hpre ⟨rest', rfl⟩
        simp [stripDoubleStar, hd]
      · simp [stripDoubleStar, hc]

theorem mem_joinNL {g : List (List Char)} {c : Char}
    (h : c ∈ joinSep ['\n'] g) : c = '\n' ∨ ∃ l ∈ g, c ∈ l := by
  induction g with
  | nil => simp [joinSep_nil] at h
  | cons a t ih =>
    rcases t with _ | ⟨b, t⟩
    · rw [joinSep_single] at h
      exact Or.inr ⟨a, List.mem_cons_self a _, h⟩
    · rw [joinSep_cons₂] at h
      rcases List.mem_append.mp h with h | h
      · rcases List.mem_append.mp h with h | h
        · exact Or.inr ⟨a, List.mem_cons_self a _, h⟩
        · left; simpa using h
      · rcases ih h with h | ⟨l, hl, hc⟩
        · exact Or.inl h
        · exact Or.inr ⟨l, List.mem_cons_of_mem a hl, hc⟩

/-! ## Supporting lemmas: the classification loop -/

theorem secOk_props {s : List Char} (h : SecOk s) :
    s ≠ [] ∧ pyStrip s = s := by
  rcases h with ⟨g, hg, hmem, rfl⟩
  exact ⟨joinNL_ne_nil hg (fun l hl => (hmem l hl).1.1),
    joinNL_strip hg (fun l hl => ⟨(hmem l hl).1.1, (hmem l hl).1.2.2⟩)⟩

theorem flushSections_spec {st : FmtState} (hst : InvState st) :
    (∀ s ∈ flushSections st, SecOk s) ∧
      ((flushSections st).map (pySplit '\n')).flatten = flattenState st := by
  unfold flushSections flattenState
  rcases hcur : st.current with _ | ⟨l, ls⟩
  · simp only [List.isEmpty_nil, if_true]
    exact ⟨hst.1, by simp⟩
  · have hmem : ∀ x ∈ l :: ls, LineOk x ∧ Keep x = true :=
      fun x hx => hst.2 x (hcur.symm ▸ hx)
    rw [if_neg (by simp)]
    constructor
    · intro s hs
      rcases List.mem_append.mp hs with hs | hs
      · exact hst.1 s hs
      · rcases List.mem_singleton.mp hs
        exact ⟨l :: ls, by simp, hmem, rfl⟩
    · rw [List.map_append, List.flatten_append]
      have hsplit : pySplit '\n' (joinSep ['\n'] (l :: ls)) = l :: ls :=
        pySplit_joinNL (by simp) (fun x hx => (hmem x hx).1.2.1)
      simp [hsplit]

theorem stepLine_spec (i : Nat) {l : List Char} {st : FmtState}
    (hlok : LineOk l) (hst : InvState st) :
    InvState (stepLine i l st) ∧
      flattenState (stepLine i l st) =
        flattenState st ++ (if Keep l then [l] else []) := by
  have hsec : ∀ s ∈ flushSections st, SecOk s := (flushSections_spec hst).1
  have hflat : ((flushSections st).map (pySplit '\n')).flatten =
      flattenState st := (flushSections_spec hst).2
  have hsingle : pySplit '\n' l = [l] := pySplit_no_sep hlok.2.1
  unfold stepLine
  by_cases hskip : ("---".toList).isPrefixOf l = true
  · have hkeep : Keep l = false := by unfold Keep; rw [hskip]; rfl
    rw [if_pos hskip, hkeep]
    exact ⟨hst, by simp⟩
  · have hpre : ("---".toList).isPrefixOf l = false := eq_false_of_ne_true hskip
    have hkeep : Keep l = true := by unfold Keep; rw [hpre]; rfl
    have hlk : LineOk l ∧ Keep l = true := ⟨hlok, hkeep⟩
    have hown : (∀ s ∈ flushSections st ++ [l], SecOk s) := by
      intro s hs
      rcases List.mem_append.mp hs with hs | hs
      · exact hsec s hs
      · rcases List.mem_singleton.mp hs
        exact ⟨[l], by simp, by simpa using hlk, (joinSep_single _ _).symm⟩
    have hownflat : flattenState ⟨flushSections st ++ [l], []⟩ =
        flattenState st ++ [l] := by
      show ((flushSections st ++ [l]).map (pySplit '\n')).flatten ++ [] =
        flattenState st ++ [l]
      rw [List.map_append, List.flatten_append, hflat]
      simp [hsingle]
    have happend : ∀ x ∈ st.current ++ [l], LineOk x ∧ Keep x = true := by
      intro x hx
      rcases List.mem_append.mp hx with hx | hx
      · exact hst.2 x hx
      · rcases List.mem_singleton.mp hx
        exact hlk
    have happflat : flattenState ⟨st.sections, st.current ++ [l]⟩ =
        flattenState st ++ [l] := by
      show (st.sections.map (pySplit '\n')).flatten ++ (st.current ++ [l]) =
        ((st.sections.map (pySplit '\n')).flatten ++ st.current) ++ [l]
      rw [List.append_assoc]
    rw [if_neg hskip, hkeep]
    by_cases hhdr : isHeaderLine i l = true
    · rw [if_pos hhdr]
      exact ⟨⟨hown, by simp⟩, hownflat⟩
    · rw [if_neg hhdr]
      by_cases hbul : isBulletLine l = true
      · rw [if_pos hbul]
        by_cases hfl : (!st.current.isEmpty && !lastIsBullet st.current) = true
        · rw [if_pos hfl]
          refine ⟨⟨hsec, by simpa using hlk⟩, ?_⟩
          show ((flushSections st).map (pySplit '\n')).flatten ++ [l] =
            flattenState st ++ [l]
          rw [hflat]
        · rw [if_neg hfl]
          exact ⟨⟨hst.1, happend⟩, happflat⟩
      · rw [if_neg hbul]
        by_cases hhash : (['#']).isPrefixOf l = true
        · rw [if_pos hhash]
          exact ⟨⟨hown, by simp⟩, hownflat⟩
        · rw [if_neg hhash]
          exact ⟨⟨hst.1, happend⟩, happflat⟩

theorem runFold_spec (ls : List (List Char)) :
    ∀ (i : Nat) (st : FmtState), (∀ l ∈ ls, LineOk l) → InvState st →
      InvState (runFold i ls st) ∧
        flattenState (runFold i ls st) =
          flattenState st ++ ls.filter Keep := by
  induction ls with
  | nil => intro i st _ hst; exact ⟨hst, by simp [runFold]⟩
  | cons l ls ih =>
    intro i st hok hst
    have hl : LineOk l := hok l (List.mem_cons_self l ls)
    obtain ⟨hst', hflat'⟩ := stepLine_spec i hl hst
    obtain ⟨hst'', hflat''⟩ := ih (i + 1) (stepLine i l st)
      (fun x hx => hok x (List.mem_cons_of_mem l hx)) hst'
    refine ⟨hst'', ?_⟩
    rw [show runFold i (l :: ls) st = runFold (i + 1) ls (stepLine i l st)
      from rfl]
    rw [hflat'', hflat']
    by_cases hk : Keep l = true <;> simp [hk, List.filter_cons]

theorem formatSections_spec (content : List Char) :
    (∀ s ∈ formatSections content, SecOk s) ∧
      ((formatSections content).map (pySplit '\n')).flatten =
        (linesOf (stripDoubleStar content)).filter Keep := by
  unfold formatSections
  have h0 : InvState ⟨[], []⟩ := ⟨by simp, by simp⟩
  obtain ⟨hst, hflat⟩ := runFold_spec (linesOf (stripDoubleStar content)) 0
    ⟨[], []⟩ (fun l hl => mem_linesOf_lineOk hl) h0
  obtain ⟨hsec, hflush⟩ := flushSections_spec hst
  refine ⟨hsec, ?_⟩
  rw [hflush, hflat]
  simp [flattenState]

/-! ## Supporting lemmas: assembly and joining -/

theorem assembleSections_go (ss : List (List Char)) :
    ∀ (i : Nat) (acc : List Char), 0 < i →
      (∀ s ∈ ss, s ≠ [] ∧ pyStrip s = s) →
      assembleSections i ss acc =
        acc ++ (ss.map (fun s => '\n' :: s)).flatten := by
  induction ss with
  | nil => intro i acc _ _; simp [assembleSections]
  | cons s ss ih =>
    intro i acc hi hok
    obtain ⟨hne, hstrip⟩ := hok s (List.mem_cons_self s ss)
    unfold assembleSections
    rw [if_neg (by rw [hstrip]; simpa [List.isEmpty_iff] using hne),
      if_pos hi, hstrip,
      ih (i + 1) _ (by omega) (fun x hx => hok x (List.mem_cons_of_mem s hx))]
    simp

theorem joinNL_cons_flatten (s : List Char) (ss : List (List Char)) :
    joinSep ['\n'] (s :: ss) = s ++ (ss.map (fun x => '\n' :: x)).flatten := by
  induction ss generalizing s with
  | nil => simp [joinSep_single]
  | cons b t ih =>
    rw [joinSep_cons₂, ih b]
    simp

theorem assemble_eq_join {ss : List (List Char)} (h : ∀ s ∈ ss, SecOk s) :
    assembleSections 0 ss [] = joinSep ['\n'] ss := by
  rcases ss with _ | ⟨s, ss⟩
  · rfl
  · obtain ⟨hne, hstrip⟩ := secOk_props (h s (List.mem_cons_self s ss))
    unfold assembleSections
    rw [if_neg (by rw [hstrip]; simpa [List.isEmpty_iff] using hne),
      if_neg (by simp), hstrip,
      assembleSections_go ss 1 _ Nat.one_pos
        (fun x hx => secOk_props (h x (List.mem_cons_of_mem s hx))),
      joinNL_cons_flatten]
    simp

theorem pySplit_join_sections {ss : List (List Char)}
    (h : ∀ s ∈ ss, SecOk s) (hne : ss ≠ []) :
    pySplit '\n' (joinSep ['\n'] ss) = (ss.map (pySplit '\n')).flatten := by
  induction ss with
  | nil => exact absurd rfl hne
  | cons s ss ih =>
    rcases ss with _ | ⟨b, t⟩
    · rw [joinSep_single]
      simp
    · rw [joinSep_cons₂, List.append_assoc,
        show ['\n'] ++ joinSep ['\n'] (b :: t) =
          '\n' :: joinSep ['\n'] (b :: t) from rfl,
        pySplit_sep_append,
        ih (fun x hx => h x (List.mem_cons_of_mem s hx)) (by simp)]
      simp

theorem formatSections_ne_nil {content : List Char}
    (h : (linesOf (stripDoubleStar content)).filter Keep ≠ []) :
    formatSections content ≠ [] := by
  intro hnil
  obtain ⟨_, hflat⟩ := formatSections_spec content
  rw [hnil] at hflat
  exact h hflat.symm

theorem formatSections_nil {content : List Char}
    (h : (linesOf (stripDoubleStar content)).filter Keep = []) :
    formatSections content = [] := by
  obtain ⟨hsec, hflat⟩ := formatSections_spec content
  rcases hss : formatSections content with _ | ⟨s, ss⟩
  · rfl
  · rw [hss, h] at hflat
    simp only [List.map_cons, List.flatten_cons,
      List.append_eq_nil] at hflat
    exact absurd hflat.1 (pySplit_ne_nil '\n' s)

/-! ## Supporting lemmas: line starts and the hashtag relocation -/

theorem prefix_headD {l₁ l₂ : List Char} (h₁ : l₁ ≠ []) (h₂ : l₁ <+: l₂) :
    l₁.headD 'x' = l₂.headD 'x' := by
  rcases h₂ with ⟨r, rfl⟩
  rcases l₁ with _ | ⟨a, t⟩
  · exact absurd rfl h₁
  · rfl

theorem dash3_prefix_block {A : List Char} (B : List Char)
    (hA : ("---".toList).isPrefixOf A = false)
    (hB : B.headD ' ' ≠ '-') :
    ("---".toList).isPrefixOf (A ++ B) = false := by
  rw [prefixOf_false_iff] at hA ⊢
  rw [show ("---".toList) = ['-', '-', '-'] from rfl] at hA ⊢
  rintro ⟨r, hr⟩
  rcases A with _ | ⟨a1, A⟩
  · simp only [List.nil_append] at hr
    rw [← hr] at hB
    simp at hB
  · simp only [List.cons_append, List.cons.injEq] at hr
    obtain ⟨ha1, hr⟩ := hr
    rcases A with _ | ⟨a2, A⟩
    · simp only [List.nil_append] at hr
      rw [← hr] at hB
      simp at hB
    · simp only [List.cons_append, List.cons.injEq] at hr
      obtain ⟨ha2, hr⟩ := hr
      rcases A with _ | ⟨a3, A⟩
      · simp only [List.nil_append] at hr
        rw [← hr] at hB
        simp at hB
      · simp only [List.cons_append, List.cons.injEq] at hr
        obtain ⟨ha3, _⟩ := hr
        subst ha1
        subst ha2
        subst ha3
        exact hA ⟨A, rfl⟩

theorem dash3_not_prefix_joinNL {K : List (List Char)} (hne : K ≠ [])
    (h : ∀ l ∈ K, ("---".toList).isPrefixOf l = false) :
    ("---".toList).isPrefixOf (joinSep ['\n'] K) = false := by
  rcases K with _ | ⟨k, K⟩
  · exact absurd rfl hne
  · rcases K with _ | ⟨k2, K⟩
    · rw [joinSep_single]
      exact h k (List.mem_cons_self _ _)
    · rw [joinSep_cons₂, List.append_assoc]
      exact dash3_prefix_block _ (h k (List.mem_cons_self _ _)) (by simp)

theorem noNLTriple_joinNL {K : List (List Char)}
    (hnl : ∀ l ∈ K, '\n' ∉ l)
    (h : ∀ l ∈ K, ("---".toList).isPrefixOf l = false) :
    noNLTriple (joinSep ['\n'] K) = true := by
  induction K with
  | nil => rfl
  | cons k K ih =>
    rcases K with _ | ⟨k2, K⟩
    · rw [joinSep_single]
      exact noNLTriple_of_no_newline (hnl k (List.mem_cons_self _ _))
    · rw [joinSep_cons₂, List.append_assoc]
      apply noNLTriple_append_noNL (hnl k (List.mem_cons_self _ _))
      have hjoin : noNLTriple (joinSep ['\n'] (k2 :: K)) = true :=
        ih (fun l hl => hnl l (List.mem_cons_of_mem k hl))
          (fun l hl => h l (List.mem_cons_of_mem k hl))
      have hpre2 : ("---".toList).isPrefixOf (joinSep ['\n'] (k2 :: K)) =
          false :=
        dash3_not_prefix_joinNL (by simp)
          (fun l hl => h l (List.mem_cons_of_mem k hl))
      have hpre : (['\n', '-', '-', '-'].isPrefixOf
          ('\n' :: joinSep ['\n'] (k2 :: K))) = false := by
        rw [prefixOf_false_iff]
        rintro ⟨r, hr⟩
        simp only [List.cons_append, List.cons.injEq] at hr
        rw [prefixOf_false_iff] at hpre2
        refine hpre2 ⟨r, ?_⟩
        rw [show ("---".toList) = ['-', '-', '-'] from rfl]
        simpa using hr.2
      show noNLTriple ('\n' :: joinSep ['\n'] (k2 :: K)) = true
      unfold noNLTriple strIn
      rw [hpre]
      simpa [noNLTriple] using hjoin

theorem noNLTriple_cons_of_ne {c : Char} {X : List Char} (hc : c ≠ '\n')
    (h : noNLTriple X = true) : noNLTriple (c :: X) = true := by
  have hpre : (['\n', '-', '-', '-'].isPrefixOf (c :: X)) = false := by
    rw [prefixOf_false_iff]
    rintro ⟨r, hr⟩
    simp only [List.cons_append, List.cons.injEq] at hr
    exact hc hr.1.symm
  unfold noNLTriple strIn
  rw [hpre]
  simpa [noNLTriple] using h

theorem noNLTriple_nl_hash {J : List Char} (hJ : noNLTriple J = true) :
    noNLTriple ('\n' :: '#' :: J) = true := by
  have h2 : noNLTriple ('#' :: J) = true :=
    noNLTriple_cons_of_ne (by decide) hJ
  have hpre : (['\n', '-', '-', '-'].isPrefixOf ('\n' :: '#' :: J)) =
      false := by
    rw [prefixOf_false_iff]
    rintro ⟨r, hr⟩
    simp only [List.cons_append, List.cons.injEq] at hr
    exact absurd hr.2.1 (by decide)
  unfold noNLTriple strIn
  rw [hpre]
  simpa [noNLTriple] using h2

theorem noNLTriple_hashJoin {ps : List (List Char)}
    (h : ∀ p ∈ ps, noNLTriple p = true) :
    noNLTriple (joinSep [' ', '#'] (ps.map pyStrip)) = true := by
  induction ps with
  | nil => rfl
  | cons p ps ih =>
    rcases ps with _ | ⟨q, t⟩
    · simp only [List.map_cons, List.map_nil, joinSep_single]
      exact noNLTriple_of_within (pyStrip_within p)
        (h p (List.mem_cons_self _ _))
    · simp only [List.map_cons] at ih ⊢
      rw [joinSep_cons₂, List.append_assoc]
      apply noNLTriple_append_headSafe
      · exact noNLTriple_of_within (pyStrip_within p)
          (h p (List.mem_cons_self _ _))
      · show noNLTriple (' ' :: '#' ::
          joinSep [' ', '#'] (pyStrip q :: t.map pyStrip)) = true
        exact noNLTriple_cons_of_ne (by decide)
          (noNLTriple_cons_of_ne (by decide)
            (ih (fun x hx => h x (List.mem_cons_of_mem p hx))))
      · simp

theorem pySplit_tail_good {s : List Char} (h1 : noNLTriple s = true) :
    ∀ l ∈ (pySplit '\n' s).tail, ("---".toList).isPrefixOf l = false := by
  induction s with
  | nil => simp [pySplit_nil]
  | cons c cs ih =>
    rw [pySplit_cons]
    by_cases hc : c = '\n'
    · rw [if_pos hc]
      subst hc
      have hcs : noNLTriple cs = true := noNLTriple_cons_elim h1
      have hcspre : ("---".toList).isPrefixOf cs = false := by
        rw [prefixOf_false_iff]
        rintro ⟨r, hr⟩
        unfold noNLTriple strIn at h1
        have hb : (['\n', '-', '-', '-'].isPrefixOf ('\n' :: cs)) = true := by
          rw [prefixOf_iff]
          exact ⟨r, by rw [← hr]; rfl⟩
        rw [hb] at h1
        simp at h1
      intro l hl
      simp only [List.tail_cons] at hl
      rcases hsp : pySplit '\n' cs with _ | ⟨p, ps⟩
      · exact absurd hsp (pySplit_ne_nil _ _)
      · rw [hsp] at hl
        rcases List.mem_cons.mp hl with rfl | hl
        · have hp : l <+: cs := by
            have := pySplit_headD_pre '\n' cs
            rwa [hsp] at this
          rw [prefixOf_false_iff] at hcspre ⊢
          exact fun hpre => hcspre (hpre.trans hp)
        · have htail := ih hcs
          rw [hsp] at htail
          exact htail l (by simpa using hl)
    · rw [if_neg hc]
      intro l hl
      have hcs : noNLTriple cs = true := noNLTriple_cons_elim h1
      rcases hsp : pySplit '\n' cs with _ | ⟨p, ps⟩
      · exact absurd hsp (pySplit_ne_nil _ _)
      · rw [hsp] at hl
        simp only [List.modifyHead, List.tail_cons] at hl
        have htail := ih hcs
        rw [hsp] at htail
        exact htail l (by simpa using hl)

theorem pySplit_all_good {s : List Char} (h1 : noNLTriple s = true)
    (h2 : ("---".toList).isPrefixOf s = false) :
    ∀ l ∈ pySplit '\n' s, ("---".toList).isPrefixOf l = false := by
  intro l hl
  rcases hsp : pySplit '\n' s with _ | ⟨p, ps⟩
  · exact absurd hsp (pySplit_ne_nil _ _)
  · rw [hsp] at hl
    rcases List.mem_cons.mp hl with rfl | hl
    · have hp : l <+: s := by
        have := pySplit_headD_pre '\n' s
        rwa [hsp] at this
      rw [prefixOf_false_iff] at h2 ⊢
      exact fun hpre => h2 (hpre.trans hp)
    · have htail := pySplit_tail_good h1
      rw [hsp] at htail
      exact htail l (by simpa using hl)

theorem pyStrip_pre_of_head {l : List Char}
    (h : isPySpace (l.headD 'x') = false) : pyStrip l <+: l := by
  rcases l with _ | ⟨d, ds⟩
  · simp [pyStrip]
  · rw [pyStrip_eq_rdrop, List.dropWhile_cons_of_neg (by simpa using h)]
    exact rdrop_pre _ _

theorem hashtagTail_good {t : List Char}
    (hlines : ∀ l ∈ pySplit '\n' t,
      l ≠ [] ∧ pyStrip l = l ∧ ("---".toList).isPrefixOf l = false) :
    ∀ l ∈ pySplitlines (pyStrip (hashtagTail t)),
      ("---".toList).isPrefixOf l = false := by
  have hKnl : ∀ x ∈ pySplit '\n' t, '\n' ∉ x :=
    fun x hx => mem_pySplit_not_sep hx
  have hKgood : ∀ x ∈ pySplit '\n' t, ("---".toList).isPrefixOf x = false :=
    fun x hx => (hlines x hx).2.2
  have htK : joinSep ['\n'] (pySplit '\n' t) = t := joinNL_pySplit t
  have hnnt : noNLTriple t = true := by
    rw [← htK]
    exact noNLTriple_joinNL hKnl hKgood
  have hpret : ("---".toList).isPrefixOf t = false := by
    rw [← htK]
    exact dash3_not_prefix_joinNL (pySplit_ne_nil '\n' t) hKgood
  intro l hl
  have hmem : l ∈ pySplit '\n' (pyStrip (hashtagTail t)) := mem_pySplitlines hl
  unfold hashtagTail at hmem
  by_cases hcontains : t.contains '#' = true
  · rw [if_pos hcontains] at hmem
    rcases hsplit : pySplit '#' t with _ | ⟨m, ps⟩
    · exact absurd hsplit (pySplit_ne_nil '#' t)
    · rw [hsplit] at hmem
      dsimp only at hmem
      set J := joinSep [' ', '#'] (ps.map pyStrip) with hJdef
      have hmpre : m <+: t := by
        have := pySplit_headD_pre '#' t
        rwa [hsplit] at this
      have hnm : noNLTriple (pyStrip m) = true :=
        noNLTriple_of_within (pyStrip_within m)
          (noNLTriple_of_within (pre_to_within hmpre) hnnt)
      have hJn : noNLTriple J = true := by
        rw [hJdef]
        apply noNLTriple_hashJoin
        intro p hp
        have hpmem : p ∈ pySplit '#' t := by
          rw [hsplit]
          exact List.mem_cons_of_mem m hp
        exact noNLTriple_of_within (mem_pySplit_within hpmem) hnnt
      have ht' : noNLTriple (pyStrip m ++ '\n' :: '#' :: J) = true :=
        noNLTriple_append_headSafe hnm (noNLTriple_nl_hash hJn) (by simp)
      have hthead : isPySpace (t.headD 'x') = false := by
        rcases hK0 : (pySplit '\n' t).headD [] with _ | ⟨c0, cs0⟩
        · exact absurd hK0
            ((hlines _ (headD_mem (pySplit_ne_nil '\n' t))).1)
        · have h0 := hlines _ (headD_mem (pySplit_ne_nil '\n' t))
          have hc0 : isPySpace c0 = false :=
            head_not_space_of_strip_eq h0.2.1 hK0
          have hh := joinNL_headD (pySplit_ne_nil '\n' t)
            (fun x hx => (hlines x hx).1)
          rw [htK, hK0] at hh
          rw [hh]
          exact hc0
      have hmain : ("---".toList).isPrefixOf
          (pyStrip (pyStrip m ++ '\n' :: '#' :: J)) = false := by
        rcases hsm : pyStrip m with _ | ⟨c, cs⟩
        · simp only [List.nil_append]
          have hdw : ('\n' :: '#' :: J).dropWhile isPySpace = '#' :: J := by
            rw [List.dropWhile_cons_of_pos (by decide),
              List.dropWhile_cons_of_neg (by decide)]
          have hpre : pyStrip ('\n' :: '#' :: J) <+: '#' :: J := by
            rw [pyStrip_eq_rdrop, hdw]
            exact rdrop_pre _ _
          rw [prefixOf_false_iff]
          intro hx
          rcases hx.trans hpre with ⟨r, hr⟩
          simp only [show ("---".toList) = ['-', '-', '-'] from rfl,
            List.cons_append, List.cons.injEq] at hr
          exact absurd hr.1 (by decide)
        · have hc : isPySpace c = false := pyStrip_head hsm
          have hmne : m ≠ [] := by
            intro h0
            rw [h0] at hsm
            simp [pyStrip] at hsm
          have hmhead : isPySpace (m.headD 'x') = false := by
            rw [prefix_headD hmne hmpre]
            exact hthead
          have hmstrip_pre : pyStrip m <+: m := pyStrip_pre_of_head hmhead
          have hmnopre : ("---".toList).isPrefixOf m = false := by
            rw [prefixOf_false_iff] at hpret ⊢
            exact fun hx => hpret (hx.trans hmpre)
          have hsmnopre : ("---".toList).isPrefixOf (c :: cs) = false := by
            rw [← hsm, prefixOf_false_iff]
            intro hx
            exact (prefixOf_false_iff.mp hmnopre) (hx.trans hmstrip_pre)
          have hstpre : pyStrip ((c :: cs) ++ '\n' :: '#' :: J) <+:
              (c :: cs) ++ '\n' :: '#' :: J :=
            pyStrip_pre_of_head (by simpa using hc)
          have hpre' : ("---".toList).isPrefixOf
              ((c :: cs) ++ '\n' :: '#' :: J) = false :=
            dash3_prefix_block _ hsmnopre (by simp)
          rw [prefixOf_false_iff] at hpre' ⊢
          exact fun hx => hpre' (hx.trans hstpre)
      exact pySplit_all_good
        (noNLTriple_of_within (pyStrip_within _) ht') hmain l hmem
  · rw [if_neg hcontains] at hmem
    have hstrip : pyStrip t = t := by
      rw [← htK]
      exact joinNL_strip (pySplit_ne_nil '\n' t)
        (fun x hx => ⟨(hlines x hx).1, (hlines x hx).2.1⟩)
    rw [hstrip] at hmem
    exact hKgood l hmem

/-! ## Theorems: credential store -/

/-- C1.  Every record returned by the `load_cookies` validity filter has
its `expiry`, `expires` and `domain` attributes removed, and originates
from a stored record whose `expiry`, if present, is strictly later than
the time of the call — records expiring at or before call time are never
returned. -/
theorem load_cookies_valid {now : Int} {cookies : List Cookie} {c : Cookie}
    (hc : c ∈ validCookiesOf now cookies) :
    c.expiry = none ∧ c.expires = none ∧ c.domain = none ∧
      ∃ c₀ ∈ cookies, c = stripAttrs c₀ ∧ ∀ e, c₀.expiry = some e → now < e := by
  unfold validCookiesOf at hc
  rcases List.mem_map.mp hc with ⟨c₀, hc₀, rfl⟩
  rcases List.mem_filter.mp hc₀ with ⟨hmem, hcond⟩
  refine ⟨rfl, rfl, rfl, c₀, hmem, rfl, ?_⟩
  intro e he
  rw [he] at hcond
  exact of_decide_eq_true hcond

/-- Witness for C1 at a concrete store: `now = 100`, one record already
expired, one record valid with expiry 200 plus a domain. -/
theorem load_cookies_valid_witness :
    (stripAttrs ⟨"li_at", "v", some 200, none, some "d"⟩ ∈
        validCookiesOf 100
          [⟨"old", "w", some 50, none, some "d"⟩,
           ⟨"li_at", "v", some 200, none, some "d"⟩]) ∧
      (stripAttrs ⟨"li_at", "v", some 200, none, some "d"⟩).expiry = none ∧
      (stripAttrs ⟨"li_at", "v", some 200, none, some "d"⟩).domain = none := by
  have h := @load_cookies_valid 100
    [⟨"old", "w", some 50, none, some "d"⟩,
      ⟨"li_at", "v", some 200, none, some "d"⟩]
    (stripAttrs ⟨"li_at", "v", some 200, none, some "d"⟩) (by decide)
  exact ⟨by decide, h.1, h.2.2.1⟩

/-- C6.  `save_cookies` writes the credential file and reports success
iff the record set contains at least one essential cookie name; a set
with no essential name is rejected without writing. -/
theorem save_cookies_guard (cookies : List Cookie) :
    ((∀ c ∈ cookies, c.name ∉ essential_cookies) →
        save_cookies cookies = (false, [])) ∧
      ((∃ c ∈ cookies, c.name ∈ essential_cookies) →
        save_cookies cookies = (true, [SaveEv.writeFile])) := by
  constructor
  · intro h
    unfold save_cookies
    rw [if_neg]
    intro hany
    rcases List.any_eq_true.mp hany with ⟨c, hc, hname⟩
    exact h c hc (by simpa using hname)
  · rintro ⟨c, hc, hname⟩
    unfold save_cookies
    rw [if_pos]
    exact List.any_eq_true.mpr ⟨c, hc, by simpa using hname⟩

/-! ## Theorems: session teardown and login workflow -/

/-- C2.  In every run of `post_to_linkedin` in which `get_driver()`
returns (the browser session is created), `driver.quit()` is executed
exactly once, as the last action before the function returns, on every
exit path — success, returned failure, or an exception at any
intermediate step. -/
theorem post_to_linkedin_quit_once (env : PostEnv)
    (h : PostEv.getDriver ∈ (post_to_linkedin env).2) :
    (post_to_linkedin env).2.count PostEv.quit = 1 ∧
      (post_to_linkedin env).2.getLast? = some PostEv.quit := by
  rcases env with ⟨cg, gl, gd, mx, lo, cr, lg⟩
  cases cg <;> cases gl <;> cases gd <;> cases mx <;> cases lo <;> cases cr <;>
    cases lg <;> first
      | exact absurd h (by decide)
      | exact ⟨by decide, by decide⟩

/-- Witness for C2: the fully successful run tears the session down
exactly once, at the end. -/
theorem post_to_linkedin_quit_once_witness :
    (post_to_linkedin ⟨true, true, true, true, true, true, true⟩).2.count
        PostEv.quit = 1 ∧
      (post_to_linkedin ⟨true, true, true, true, true, true, true⟩).2.getLast? =
        some PostEv.quit :=
  post_to_linkedin_quit_once ⟨true, true, true, true, true, true, true⟩
    (by decide)

/-- C3 counterexample.  With no cookie file, a missing email and a
configured password, `login_to_linkedin` reaches the credential check and
executes `raise ValueError(...)`, but the error is caught by the
function's own `except Exception` handler (line 213): the caller receives
the plain failure flag `False`, not a propagated exception — refuting the
claim that the configuration error propagates to the caller. -/
theorem login_config_error_not_propagated :
    (login_to_linkedin ⟨false, [], 0, false, none, some "pw", true, true⟩).1 =
        Except.ok false ∧
      LoginEv.raiseConfigError ∈
        (login_to_linkedin ⟨false, [], 0, false, none, some "pw", true, true⟩).2 := by
  exact ⟨rfl, by decide⟩

/-- C3 as amended.  Whenever the login workflow falls through to manual
authentication with a missing (or empty) identifier or secret, it raises
a configuration error internally, catches it in its own top-level
handler, and returns the failure flag `False` to its caller without
attempting any manual-login step; the run is not retried. -/
theorem login_config_error_aborts (env : LoginEnv)
    (hcookie : ¬(env.fileExists = true ∧
      (validCookiesOf env.now env.stored).isEmpty = false ∧
      env.checkAfterCookies = true))
    (hmiss : pyTruthy env.email = false ∨ pyTruthy env.password = false) :
    (login_to_linkedin env).1 = Except.ok false ∧
      LoginEv.raiseConfigError ∈ (login_to_linkedin env).2 ∧
      LoginEv.navLoginPage ∉ (login_to_linkedin env).2 ∧
      LoginEv.enterEmail ∉ (login_to_linkedin env).2 ∧
      LoginEv.submitLogin ∉ (login_to_linkedin env).2 := by
  have hm : (!(pyTruthy env.email) || !(pyTruthy env.password)) = true := by
    rcases hmiss with h | h <;> simp [h]
  rcases hfe : env.fileExists with _ | _
  · simp [login_to_linkedin, hfe, hm]
  · rcases hv : (validCookiesOf env.now env.stored).isEmpty with _ | _
    · rcases hchk : env.checkAfterCookies with _ | _
      · simp [login_to_linkedin, load_cookies, hfe, hv, hchk, hm, List.mem_map]
      · exact absurd ⟨hfe, hv, hchk⟩ hcookie
    · simp [login_to_linkedin, load_cookies, hfe, hv, hm]

/-- Witness for C3's amended theorem at the counterexample environment. -/
theorem login_config_error_aborts_witness :
    (login_to_linkedin ⟨true, [], 0, false, some "", some "pw", true, true⟩).1 =
        Except.ok false ∧
      LoginEv.raiseConfigError ∈
        (login_to_linkedin ⟨true, [], 0, false, some "", some "pw", true, true⟩).2 ∧
      LoginEv.navLoginPage ∉
        (login_to_linkedin ⟨true, [], 0, false, some "", some "pw", true, true⟩).2 ∧
      LoginEv.enterEmail ∉
        (login_to_linkedin ⟨true, [], 0, false, some "", some "pw", true, true⟩).2 ∧
      LoginEv.submitLogin ∉
        (login_to_linkedin ⟨true, [], 0, false, some "", some "pw", true, true⟩).2 :=
  login_config_error_aborts ⟨true, [], 0, false, some "", some "pw", true, true⟩
    (by decide) (Or.inl (by decide))

/-- C8.  If the cookie file exists but every stored record is expired at
load time, the login workflow injects no cookie into the browser session
and skips cookie-based verification entirely, proceeding to the manual
login page (provided the credentials are configured, which manual
authentication requires). -/
theorem login_expired_cookies_go_manual (env : LoginEnv)
    (hfe : env.fileExists = true)
    (hexp : ∀ c ∈ env.stored, ∃ e, c.expiry = some e ∧ e ≤ env.now)
    (hem : pyTruthy env.email = true) (hpw : pyTruthy env.password = true) :
    (∀ n, LoginEv.addCookie n ∉ (login_to_linkedin env).2) ∧
      LoginEv.checkLoginCookie ∉ (login_to_linkedin env).2 ∧
      LoginEv.navLoginPage ∈ (login_to_linkedin env).2 := by
  have hv : (validCookiesOf env.now env.stored).isEmpty = true := by
    rw [List.isEmpty_iff]
    unfold validCookiesOf
    rw [List.map_eq_nil_iff]
    rw [List.filter_eq_nil_iff]
    intro c hc
    rcases hexp c hc with ⟨e, he, hle⟩
    simp [he, not_lt.mpr hle]
  rcases hmf : env.manualFieldsOk with _ | _ <;>
    rcases hcm : env.checkAfterManual with _ | _ <;>
      simp [login_to_linkedin, load_cookies, hfe, hv, hem, hpw, hmf, hcm]

/-- Witness for C8: a store holding a single record that expired at time
50, loaded at time 100 with credentials configured. -/
theorem login_expired_cookies_go_manual_witness :
    (∀ n, LoginEv.addCookie n ∉ (login_to_linkedin
        ⟨true, [⟨"li_at", "v", some 50, none, none⟩], 100, true,
          some "e@x", some "pw", true, true⟩).2) ∧
      LoginEv.checkLoginCookie ∉ (login_to_linkedin
        ⟨true, [⟨"li_at", "v", some 50, none, none⟩], 100, true,
          some "e@x", some "pw", true, true⟩).2 ∧
      LoginEv.navLoginPage ∈ (login_to_linkedin
        ⟨true, [⟨"li_at", "v", some 50, none, none⟩], 100, true,
          some "e@x", some "pw", true, true⟩).2 :=
  login_expired_cookies_go_manual
    ⟨true, [⟨"li_at", "v", some 50, none, none⟩], 100, true,
      some "e@x", some "pw", true, true⟩
    rfl (by intro c hc; simp at hc; simp [hc]) (by decide) (by decide)

/-! ## Theorems: publishing workflow -/

/-- C4.  If all three compose-trigger locator approaches fail,
`create_post` reports failure (`False`) to its caller, the diagnostic
screenshots (the pre-failure one of line 258 and the handler one of
line 374) are captured before the failure is signalled, and none of the
subsequent steps — editor location, content injection, submission,
verification — executes. -/
theorem create_post_trigger_exhaustion (env : CreateEnv) (content : List Char)
    (h1 : env.btn1 = false) (h2 : env.btn2 = false) (h3 : env.btn3 = false) :
    (create_post env content).1 = false ∧
      CreateEv.screenshotPrePost ∈ (create_post env content).2 ∧
      CreateEv.screenshotError ∈ (create_post env content).2 ∧
      CreateEv.editorFound ∉ (create_post env content).2 ∧
      CreateEv.clearEditor ∉ (create_post env content).2 ∧
      CreateEv.injectParagraph ∉ (create_post env content).2 ∧
      CreateEv.submitClick ∉ (create_post env content).2 ∧
      CreateEv.verifyOk ∉ (create_post env content).2 ∧
      CreateEv.warnUnverified ∉ (create_post env content).2 := by
  simp [create_post, h1, h2, h3]

/-- Witness for C4: all trigger locators fail on a concrete content. -/
theorem create_post_trigger_exhaustion_witness :
    (create_post ⟨false, false, false, true, true, true, true, true, true,
        true, true, true⟩ "hello".toList).1 = false ∧
      CreateEv.screenshotPrePost ∈ (create_post ⟨false, false, false, true,
        true, true, true, true, true, true, true, true⟩ "hello".toList).2 ∧
      CreateEv.screenshotError ∈ (create_post ⟨false, false, false, true,
        true, true, true, true, true, true, true, true⟩ "hello".toList).2 ∧
      CreateEv.editorFound ∉ (create_post ⟨false, false, false, true,
        true, true, true, true, true, true, true, true⟩ "hello".toList).2 ∧
      CreateEv.clearEditor ∉ (create_post ⟨false, false, false, true,
        true, true, true, true, true, true, true, true⟩ "hello".toList).2 ∧
      CreateEv.injectParagraph ∉ (create_post ⟨false, false, false, true,
        true, true, true, true, true, true, true, true⟩ "hello".toList).2 ∧
      CreateEv.submitClick ∉ (create_post ⟨false, false, false, true,
        true, true, true, true, true, true, true, true⟩ "hello".toList).2 ∧
      CreateEv.verifyOk ∉ (create_post ⟨false, false, false, true,
        true, true, true, true, true, true, true, true⟩ "hello".toList).2 ∧
      CreateEv.warnUnverified ∉ (create_post ⟨false, false, false, true,
        true, true, true, true, true, true, true, true⟩ "hello".toList).2 :=
  create_post_trigger_exhaustion _ _ rfl rfl rfl

/-- C5.  When the publishing workflow reaches verification and none of
the three success probes matches, `create_post` neither raises (its
embedding is total, every internal exception being caught by its own
handler) nor reports failure: it records the non-fatal warning and
returns `True`. -/
theorem create_post_unverified_success (env : CreateEnv) (content : List Char)
    (hb : (env.btn1 || env.btn2 || env.btn3) = true)
    (he : (env.ed1 || env.ed2 || env.ed3) = true)
    (hs : (env.sub1 || env.sub2 || env.sub3) = true)
    (hv : (env.ver1 || env.ver2 || env.ver3) = false) :
    (create_post env content).1 = true ∧
      CreateEv.warnUnverified ∈ (create_post env content).2 ∧
      CreateEv.screenshotError ∉ (create_post env content).2 := by
  simp [create_post, hb, he, hs, hv]

/-- Witness for C5: every locator chain succeeds at its first approach,
no verification probe matches. -/
theorem create_post_unverified_success_witness :
    (create_post ⟨true, false, false, true, false, false, true, false,
        false, false, false, false⟩ "hello".toList).1 = true ∧
      CreateEv.warnUnverified ∈ (create_post ⟨true, false, false, true,
        false, false, true, false, false, false, false, false⟩
        "hello".toList).2 ∧
      CreateEv.screenshotError ∉ (create_post ⟨true, false, false, true,
        false, false, true, false, false, false, false, false⟩
        "hello".toList).2 :=
  create_post_unverified_success _ _ rfl rfl rfl rfl

/-- Witness for C6: a set with only a junk cookie is rejected without a
write; a set containing `li_at` is saved. -/
theorem save_cookies_guard_witness :
    save_cookies [⟨"junk", "v", none, none, none⟩] = (false, []) ∧
      save_cookies [⟨"junk", "v", none, none, none⟩,
        ⟨"li_at", "v", none, none, none⟩] = (true, [SaveEv.writeFile]) := by
  constructor
  · exact (save_cookies_guard [⟨"junk", "v", none, none, none⟩]).1 (by decide)
  · exact (save_cookies_guard [⟨"junk", "v", none, none, none⟩,
      ⟨"li_at", "v", none, none, none⟩]).2 ⟨⟨"li_at", "v", none, none, none⟩,
        by decide, by decide⟩

/-! ## Theorems: the formatter -/

/-- C7.  On the input `"Breaking News: X\n\nfoo\nbar\n\n#A #B"`,
`format_post` produces `"Breaking News: X\nfoo\nbar\n#A #B"`: the last
output line is exactly `"#A #B"`, and `"Breaking News: X"` is emitted as
its own section of `formatted_sections`. -/
theorem format_post_breaking_news :
    format_post "Breaking News: X\n\nfoo\nbar\n\n#A #B" =
        "Breaking News: X\nfoo\nbar\n#A #B" ∧
      (pySplitlines (formatPostL
          ("Breaking News: X\n\nfoo\nbar\n\n#A #B".toList))).getLastD [] =
        "#A #B".toList ∧
      "Breaking News: X".toList ∈
        formatSections ("Breaking News: X\n\nfoo\nbar\n\n#A #B".toList) := by
  refine ⟨by decide, by decide, by decide⟩

/-- C9 counterexample.  The round-trip set equality of classified lines
fails on the code: for the input `"x#y"` (a `'#'` in the middle of a
plain line) the input has no hashtag line but the output's last line
`"#y"` is one; for the input `"--- a"` the input has a bullet line
(leading `'-'`) which the formatter deletes, so the output has none. -/
theorem format_post_roundtrip_counterexample :
    classifiedLines LineClass.hashtag ("x#y".toList) = [] ∧
      classifiedLines LineClass.hashtag (formatPostL ("x#y".toList)) =
        ["#y".toList] ∧
      classifiedLines LineClass.bullet ("--- a".toList) =
        ["--- a".toList] ∧
      classifiedLines LineClass.bullet (formatPostL ("--- a".toList)) =
        [] := by
  refine ⟨by decide, by decide, by decide, by decide⟩

/-- C9 as amended.  For every input that contains no `'#'` character and
no occurrence of the `'**'` markup pair (a lone `'*'` is allowed: the
`replace('**', '')` of line 489 only deletes adjacent pairs) and none of
whose stripped non-empty lines starts with the deleted `'---'` marker,
the formatter preserves the processed line sequence exactly: the
stripped non-empty lines of the output equal those of the input, and
hence the header, bullet and hashtag line sets coincide. -/
theorem format_post_roundtrip_amended (content : List Char)
    (hstar : strIn ("**".toList) content = false) (hhash : '#' ∉ content)
    (hmark : ∀ l ∈ linesOf content,
      ("---".toList).isPrefixOf l = false) :
    linesOf (formatPostL content) = linesOf content ∧
      classifiedLines LineClass.header (formatPostL content) =
        classifiedLines LineClass.header content ∧
      classifiedLines LineClass.bullet (formatPostL content) =
        classifiedLines LineClass.bullet content ∧
      classifiedLines LineClass.hashtag (formatPostL content) =
        classifiedLines LineClass.hashtag content := by
  have hsds : stripDoubleStar content = content := stripDoubleStar_eq_self hstar
  have hkeep : (linesOf (stripDoubleStar content)).filter Keep =
      linesOf content := by
    rw [hsds]
    apply List.filter_eq_self.mpr
    intro l hl
    unfold Keep
    rw [hmark l hl]
    rfl
  have hmain : linesOf (formatPostL content) = linesOf content := by
    by_cases hempty : formatSections content = []
    · have h0 : (linesOf (stripDoubleStar content)).filter Keep = [] := by
        obtain ⟨_, hflat⟩ := formatSections_spec content
        rw [hempty] at hflat
        simpa using hflat.symm
      have hln : linesOf content = [] := by rw [← hkeep]; exact h0
      unfold formatPostL
      rw [hempty, hln]
      decide
    · obtain ⟨hsec, hflat⟩ := formatSections_spec content
      have hlines_t : pySplit '\n'
          (assembleSections 0 (formatSections content) []) =
          linesOf content := by
        rw [assemble_eq_join hsec, pySplit_join_sections hsec hempty, hflat,
          hkeep]
      set t := assembleSections 0 (formatSections content) [] with htdef
      have htjoin : t = joinSep ['\n'] (linesOf content) := by
        rw [← hlines_t, joinNL_pySplit]
      have hlne : linesOf content ≠ [] := by
        intro h0
        exact hempty (formatSections_nil (by rw [hkeep]; exact h0))
      have hmemfree : '#' ∉ t := by
        intro hmem
        rw [htjoin] at hmem
        rcases mem_joinNL hmem with h | ⟨l, hl, hc⟩
        · exact absurd h (by decide)
        · exact hhash (mem_linesOf_chars hl hc)
      have hht : hashtagTail t = t := by
        unfold hashtagTail
        rw [if_neg (by simpa using hmemfree)]
      have hstrip_t : pyStrip t = t := by
        rw [htjoin]
        exact joinNL_strip hlne
          (fun x hx => ⟨(mem_linesOf_lineOk hx).1,
            (mem_linesOf_lineOk hx).2.2⟩)
      have htne : t ≠ [] := by
        rw [htjoin]
        exact joinNL_ne_nil hlne (fun x hx => (mem_linesOf_lineOk hx).1)
      have hlast : (pySplit '\n' t).getLastD [] ≠ [] := by
        rw [hlines_t]
        exact (mem_linesOf_lineOk (getLastD_mem hlne)).1
      show linesOf (pyStrip (hashtagTail t)) = linesOf content
      rw [hht, hstrip_t]
      unfold linesOf
      rw [pySplitlines_eq_full htne hlast, hlines_t]
      have hmap : (linesOf content).map pyStrip = linesOf content := by
        conv_rhs => rw [← List.map_id (linesOf content)]
        apply List.map_congr_left
        intro x hx
        exact (mem_linesOf_lineOk hx).2.2
      rw [hmap]
      apply List.filter_eq_self.mpr
      intro x hx
      simpa [List.isEmpty_iff] using (mem_linesOf_lineOk hx).1
  refine ⟨hmain, ?_, ?_, ?_⟩ <;>
    · unfold classifiedLines
      rw [hmain]

/-- Witness for C9's amended theorem at a concrete three-line input
containing a lone `'*'` (inside the amended claim's scope). -/
theorem format_post_roundtrip_amended_witness :
    linesOf (formatPostL ("News: T\n- a*b\nplain tail".toList)) =
      linesOf ("News: T\n- a*b\nplain tail".toList) :=
  (format_post_roundtrip_amended ("News: T\n- a*b\nplain tail".toList)
    (by decide) (by decide) (by decide)).1

/-- C10.  `format_post` silently discards every line whose stripped form
begins with `'---'`: no such line contributes to any emitted section of
`formatted_sections`, and no line of the final output begins with
`'---'`. -/
theorem format_post_discards_markers (content : List Char) :
    (∀ s ∈ formatSections content, ∀ l ∈ pySplit '\n' s,
      ("---".toList).isPrefixOf l = false) ∧
    (∀ l ∈ pySplitlines (formatPostL content),
      ("---".toList).isPrefixOf l = false) := by
  obtain ⟨hsec, hflat⟩ := formatSections_spec content
  constructor
  · intro s hs l hl
    rcases hsec s hs with ⟨g, hg, hmem, rfl⟩
    rw [pySplit_joinNL hg (fun x hx => (hmem x hx).1.2.1)] at hl
    have hk := (hmem l hl).2
    unfold Keep at hk
    simpa using hk
  · by_cases hempty : formatSections content = []
    · intro l hl
      unfold formatPostL at hl
      rw [hempty] at hl
      simp [assembleSections, hashtagTail, pyStrip, pySplitlines] at hl
    · unfold formatPostL
      apply hashtagTail_good
      intro x hx
      rw [assemble_eq_join hsec, pySplit_join_sections hsec hempty,
        hflat] at hx
      have hxmem : x ∈ linesOf (stripDoubleStar content) :=
        List.mem_of_mem_filter hx
      have hxkeep : Keep x = true := List.of_mem_filter hx
      have hlok := mem_linesOf_lineOk hxmem
      refine ⟨hlok.1, hlok.2.2, ?_⟩
      unfold Keep at hxkeep
      simpa using hxkeep

/-- Witness for C10 on a concrete input whose first line carries the
`'---'` marker: neither remaining section line starts with `'---'`. -/
theorem format_post_discards_markers_witness :
    ("---".toList).isPrefixOf ("- a".toList) = false ∧
      ("---".toList).isPrefixOf ("- b".toList) = false :=
  ⟨(format_post_discards_markers ("--- marker\n- a\n- b".toList)).1
      ("- a\n- b".toList) (by decide) ("- a".toList) (by decide),
    (format_post_discards_markers ("--- marker\n- a\n- b".toList)).2
      ("- b".toList) (by decide)⟩

end LinkedIn
